import Mathlib

/-!
Verification of the CEX symmetric-cryptography core against its
natural-language specification.

Shallow embedding conventions:
* a C++ `byte` is a `Nat` below 256; `std::vector<byte>` is `List Nat`;
* 128-bit GHASH blocks are `Nat` values below `2 ^ 128`, big-endian as in
  NIST SP 800-38D;
* a C++ function that throws becomes `Except GCMErr` (for the GCM mode,
  keeping the two exception classes apart) or `Except String`;
* the block cipher engine is an explicit function parameter: the claims
  under study hold for every engine, so no fixed cipher is baked in.

Source functions embedded here are named in each doc comment; definitions
whose C++ source is not under `src/` (GHASH.cpp, CTR.cpp,
ParallelOptions.cpp, Keccak.cpp, StreamReader/StreamWriter) are modelled
from the specification and say so in their doc comments.
-/

/-! ## Byte-level helpers -/

/-- Pointwise XOR of two byte lists, truncated to the shorter one
(`MemUtils::XorBlock` semantics over the processed range). -/
def zipXor (a b : List Nat) : List Nat :=
  List.zipWith (fun x y => x ^^^ y) a b

/-- Big-endian interpretation of a byte list as a natural number
(`IntUtils::BeBytesTo64` composed over a block). -/
def beToNat (l : List Nat) : Nat :=
  l.foldl (fun acc b => acc * 256 + b % 256) 0

/-- Big-endian 16-byte encoding of a 128-bit value. -/
def beBytes16 (n : Nat) : List Nat :=
  (List.range 16).map (fun i => n / 256 ^ (15 - i) % 256)

/-- Little-endian byte-list increment with carry propagation. -/
def leIncrBytes : List Nat → List Nat
  | [] => []
  | b :: bs => if b + 1 = 256 then 0 :: leIncrBytes bs else (b + 1) :: bs

/-- Big-endian byte-list increment (`IntUtils::BeIncrement8`, also the
counter step of the CTR driver). -/
def beIncrBytes (l : List Nat) : List Nat :=
  (leIncrBytes l.reverse).reverse

/-- Zero-pad a partial block on the right to 16 bytes. -/
def padBlock16 (l : List Nat) : List Nat :=
  l ++ List.replicate (16 - l.length) 0

/-- Overwrite `dst` starting at `off` with the bytes of `src`
(`MemUtils::Copy` into a vector, for in-bounds writes). -/
def writeRange (dst : List Nat) (off : Nat) (src : List Nat) : List Nat :=
  dst.take off ++ src ++ dst.drop (off + src.length)

/-- `std::vector::resize` to `n` elements, padding with zero bytes. -/
def listResize (l : List Nat) (n : Nat) : List Nat :=
  l.take n ++ List.replicate (n - l.length) 0

/-! ## GHASH, modelled from the spec

GHASH.cpp is not under `src/`; the definitions below are modelled from the
specification, section 4.B: multiplication in GF(2^128) is the right-shift
variant with reduction polynomial `x^128 + x^7 + x^2 + x + 1`, blocks are
big-endian, absorbing XORs each (zero-padded) block into the checksum and
multiplies by the subkey `H`, and finalization multiplies in the 128-bit
length block `aad_len_bits || msg_len_bits`. -/

/-- Modelled from the spec: the GF(2^128) reduction constant
`x^128 + x^7 + x^2 + x + 1` in right-shift representation. -/
def gcmR : Nat := 0xe1 <<< 120

/-- Modelled from the spec: right-shift GF(2^128) multiplication used by
GHASH (GHASH.cpp is not under src). Bit `i` of `x` is scanned from the
most significant end while `v` runs through the H-multiples. -/
def gmul (x h : Nat) : Nat :=
  ((List.range 128).foldl
    (fun (acc : Nat × Nat) i =>
      let z := if x / 2 ^ (127 - i) % 2 = 1 then acc.1 ^^^ acc.2 else acc.1
      let v := if acc.2 % 2 = 1 then (acc.2 / 2) ^^^ gcmR else acc.2 / 2
      (z, v))
    (0, h)).1

/-- Modelled from the spec: GHASH absorption of arbitrary-length data
(`GHASH::Update` and `GHASH::ProcessSegment`; GHASH.cpp is not under src):
each 16-byte block, the last one zero-padded, is XORed into the checksum
which is then multiplied by `h`. -/
def ghashAbsorb (h : Nat) (checkSum : Nat) (data : List Nat) : Nat :=
  if data = [] then checkSum
  else ghashAbsorb h (gmul (checkSum ^^^ beToNat (padBlock16 (data.take 16))) h) (data.drop 16)
termination_by data.length
decreasing_by
  simp only [List.length_drop]
  have : data.length ≠ 0 := by
    intro h0
    exact (by assumption : ¬ data = []) (List.eq_nil_of_length_eq_zero h0)
  omega

/-- Modelled from the spec: `GHASH::FinalizeBlock` (GHASH.cpp is not under
src) multiplies in the big-endian length block
`aad_len_bits || msg_len_bits` (two 64-bit fields). -/
def ghashFinalizeBlock (h : Nat) (checkSum : Nat) (aadSize msgSize : Nat) : Nat :=
  gmul (checkSum ^^^ ((aadSize * 8 % 2 ^ 64) * 2 ^ 64 + msgSize * 8 % 2 ^ 64)) h

/-! ## The counter driver (CTR), modelled from the spec

CTR.cpp is not under `src/`; section 4.C: a 128-bit big-endian counter,
`out = in XOR E_K(counter)` per block, counter incremented per block, and
a non-aligned tail XORed with the truncated keystream of one extra block
(which still advances the counter). The keyed engine is the function
argument `E` from counter block to keystream block. -/

/-- Modelled from the spec: the CTR transform (CTR.cpp is not under src).
Returns the processed bytes and the new counter. -/
def ctrProcess (E : List Nat → List Nat) (ctr : List Nat) (input : List Nat) :
    List Nat × List Nat :=
  if input = [] then ([], ctr)
  else
    let out := zipXor (input.take 16) (E ctr)
    let rest := ctrProcess E (beIncrBytes ctr) (input.drop 16)
    (out ++ rest.1, rest.2)
termination_by input.length
decreasing_by
  simp only [List.length_drop]
  have : input.length ≠ 0 := by
    intro h0
    exact (by assumption : ¬ input = []) (List.eq_nil_of_length_eq_zero h0)
  omega

/-- The keystream the spec ascribes to the counter driver: `n` consecutive
blocks `E(ctr), E(ctr+1), ...` concatenated (spec section 4.C). Stated
separately from `ctrProcess` so that the transform can be compared against
it. -/
def ctrKeystream (E : List Nat → List Nat) (ctr : List Nat) : Nat → List Nat
  | 0 => []
  | n + 1 => E ctr ++ ctrKeystream E (beIncrBytes ctr) n

/-! ## The GCM AEAD state machine (GCM.cpp) -/

/-- The two exception classes GCM.cpp throws: `CryptoCipherModeException`
and `CryptoSymmetricCipherException`, each with its message. -/
inductive GCMErr where
  | cipherMode (msg : String) : GCMErr
  | symmetricCipher (msg : String) : GCMErr
deriving DecidableEq

/-- True exactly on a `CryptoCipherModeException` result. -/
def isCipherModeErr {α : Type} : Except GCMErr α → Bool
  | .error (.cipherMode _) => true
  | _ => false

/-- The environment of a GCM instance: the block-cipher engine (a pure
function from key and 16-byte block to 16-byte block, standing for
`IBlockCipher`) and its legal key byte-sizes (`LegalKeySizes`). -/
structure GCMConfig where
  E : List Nat → List Nat → List Nat
  legalKeySizes : List Nat

/-- The mutable fields of a `GCM` object (GCM.h).  `ctrKey`, `ctrCounter`
and `ctrKeyed` are the state of the owned CTR mode (`m_cipherMode`);
`gcmH` is the GHASH subkey, `none` while `m_gcmHash` is still null. -/
structure GCMState where
  aadData : List Nat
  aadLoaded : Bool
  aadPreserve : Bool
  aadSize : Nat
  autoIncrement : Bool
  checkSum : Nat
  ctrKey : List Nat
  ctrCounter : List Nat
  ctrKeyed : Bool
  gcmH : Option Nat
  gcmKey : List Nat
  gcmNonce : List Nat
  gcmVector : List Nat
  isEncryption : Bool
  isFinalized : Bool
  isInitialized : Bool
  msgSize : Nat
  msgTag : List Nat
deriving DecidableEq

/-- A freshly constructed GCM instance (the member initializers of the
GCM constructors, GCM.cpp lines 100-152). -/
def gcmFresh : GCMState :=
  { aadData := [], aadLoaded := false, aadPreserve := false, aadSize := 0
    autoIncrement := false, checkSum := 0
    ctrKey := [], ctrCounter := [], ctrKeyed := false
    gcmH := none, gcmKey := [], gcmNonce := [], gcmVector := []
    isEncryption := false, isFinalized := false, isInitialized := false
    msgSize := 0, msgTag := List.replicate 16 0 }

/-- The derivation of the initial counter block J0 inside `GCM::Initialize`
(GCM.cpp lines 272-285): a 12-byte nonce is resized to 16 bytes with the
last byte set to 1; any other nonce is absorbed by GHASH and finalized
with the length-encoding block (aad length 0, message length the nonce
length). -/
def gcmDeriveJ0 (h : Nat) (nonce : List Nat) : List Nat :=
  if nonce.length = 12 then
    (listResize nonce 16).set 15 1
  else
    beBytes16 (ghashFinalizeBlock h (ghashAbsorb h 0 nonce) 0 nonce.length)

/-- The unconditional tail of `GCM::Initialize` (GCM.cpp lines 270-297):
record the direction and nonce, derive J0, key the CTR mode with the
retained cipher key and counter J0, encrypt one zero block (leaving
`E_K(J0)` in `m_gcmVector` and the counter at J0+1), clear a stale tag,
and mark the instance initialized. -/
def gcmInitBody (cfg : GCMConfig) (enc : Bool) (nonce : List Nat) (s : GCMState) : GCMState :=
  let j0 := gcmDeriveJ0 (s.gcmH.getD 0) nonce
  let r := ctrProcess (cfg.E s.gcmKey) j0 (List.replicate 16 0)
  { s with isEncryption := enc, gcmNonce := nonce
           ctrKey := s.gcmKey, ctrCounter := r.2, ctrKeyed := true
           gcmVector := r.1
           msgTag := if s.isFinalized then List.replicate 16 0 else s.msgTag
           isFinalized := false
           isInitialized := true }

/-- `GCM::Initialize` (GCM.cpp lines 231-298).  The parallel-profile
checks are omitted: the embedding is the sequential path.  An empty key
requests a re-key-free re-initialization and is refused on a repeated
nonce or an unkeyed cipher; a nonempty key must have a legal size and
re-derives the GHASH subkey `H = E_K(0^128)`. -/
def gcmInit (cfg : GCMConfig) (enc : Bool) (key nonce : List Nat) (s : GCMState) :
    Except GCMErr GCMState :=
  if nonce.length < 8 then
    .error (.symmetricCipher "Requires a nonce of minimum 10 bytes in length!")
  else if key = [] then
    if nonce = s.gcmNonce then
      .error (.symmetricCipher "The nonce can not be zeroised or repeating!")
    else if !s.ctrKeyed then
      .error (.symmetricCipher "First initialization requires a key and nonce!")
    else
      .ok (gcmInitBody cfg enc nonce s)
  else if !(cfg.legalKeySizes.contains key.length) then
    .error (.symmetricCipher "Invalid key size! Key must be one of the LegalKeySizes() in length.")
  else
    .ok (gcmInitBody cfg enc nonce
      { s with gcmH := some (beToNat (cfg.E key (List.replicate 16 0))), gcmKey := key })

/-- `GCM::SetAssociatedData` (GCM.cpp lines 312-324): allowed once per
cycle on an initialized instance; retains the data and absorbs it into
the checksum. -/
def gcmSetAssociatedData (s : GCMState) (input : List Nat) : Except GCMErr GCMState :=
  if !s.isInitialized then
    .error (.symmetricCipher "The cipher has not been initialized!")
  else if s.aadLoaded then
    .error (.symmetricCipher "The associated data has already been set!")
  else
    .ok { s with aadData := input
                 checkSum := ghashAbsorb (s.gcmH.getD 0) s.checkSum input
                 aadSize := input.length
                 aadLoaded := true }

/-- The `CEXASSERT` precondition of `GCM::Transform` (GCM.cpp line 328):
a debug-only assertion, not an exception; the release build transforms
unconditionally. -/
def gcmTransformAssert (s : GCMState) : Bool :=
  s.isInitialized

/-- `GCM::Transform` (GCM.cpp lines 326-343): encrypting runs the CTR
transform and then absorbs the produced output; decrypting absorbs the
input first and then runs the CTR transform; both add the length to
`m_msgSize`.  The function returns the output bytes and the new state; it
has no error path (its precondition is only the debug assertion
`gcmTransformAssert`). -/
def gcmTransform (cfg : GCMConfig) (s : GCMState) (input : List Nat) :
    List Nat × GCMState :=
  if s.isEncryption then
    let r := ctrProcess (cfg.E s.ctrKey) s.ctrCounter input
    (r.1, { s with ctrCounter := r.2
                   checkSum := ghashAbsorb (s.gcmH.getD 0) s.checkSum r.1
                   msgSize := s.msgSize + input.length })
  else
    let cs := ghashAbsorb (s.gcmH.getD 0) s.checkSum input
    let r := ctrProcess (cfg.E s.ctrKey) s.ctrCounter input
    (r.1, { s with ctrCounter := r.2
                   checkSum := cs
                   msgSize := s.msgSize + input.length })

/-- `GCM::Reset` (GCM.cpp lines 401-417): unless `m_aadPreserve` is set,
clear the retained associated data; reset the GHASH accumulator state,
drop the initialized flag, and zeroize `m_gcmVector`, the checksum and
the message size. -/
def gcmReset (s : GCMState) : GCMState :=
  let s1 :=
    if !s.aadPreserve then
      { s with aadData := List.replicate s.aadData.length 0
               aadLoaded := false, aadSize := 0 }
    else s
  { s1 with checkSum := 0
            isInitialized := false
            gcmVector := List.replicate s1.gcmVector.length 0
            msgSize := 0 }

/-- `GCM::CalculateMac` (GCM.cpp lines 360-379): finalize GHASH with the
length block, XOR in `E_K(J0)` (held in `m_gcmVector`), store the tag,
reset, optionally auto-increment the nonce and re-initialize (reapplying
the retained associated data when `m_aadPreserve` is set), and mark the
instance finalized. -/
def gcmCalculateMac (cfg : GCMConfig) (s : GCMState) : Except GCMErr GCMState :=
  let tagN := ghashFinalizeBlock (s.gcmH.getD 0) s.checkSum s.aadSize s.msgSize
      ^^^ beToNat s.gcmVector
  let s1 := gcmReset { s with checkSum := tagN, msgTag := beBytes16 tagN }
  if s1.autoIncrement then
    match gcmInit cfg s1.isEncryption [] (beIncrBytes s1.gcmNonce) s1 with
    | .error e => .error e
    | .ok s2 =>
      let s3 :=
        if s2.aadPreserve then
          { s2 with checkSum := ghashAbsorb (s2.gcmH.getD 0) s2.checkSum s2.aadData }
        else s2
      .ok { s3 with isFinalized := true }
  else
    .ok { s1 with isFinalized := true }

/-- `GCM::Finalize` (GCM.cpp lines 220-229): requires an initialized
instance and a tag length between `MIN_TAGSIZE = 12` and
`BLOCK_SIZE = 16`; computes the MAC and returns its first `t` bytes. -/
def gcmFinalize (cfg : GCMConfig) (s : GCMState) (t : Nat) :
    Except GCMErr (List Nat × GCMState) :=
  if !s.isInitialized then
    .error (.cipherMode "The cipher mode has not been finalized!")
  else if t < 12 ∨ 16 < t then
    .error (.cipherMode "The length must be minimum of 12 and maximum of MAC code size!")
  else
    match gcmCalculateMac cfg s with
    | .error e => .error e
    | .ok s1 => .ok (s1.msgTag.take t, s1)

/-- `GCM::Verify` (GCM.cpp lines 345-358): refused while encrypting, on an
instance that is neither initialized nor finalized, and for a tag length
outside `[12, 16]`; otherwise computes the MAC if not already finalized
and returns the constant-time comparison of the stored tag with `t` bytes
of the input. -/
def gcmVerify (cfg : GCMConfig) (s : GCMState) (input : List Nat) (t : Nat) :
    Except GCMErr (Bool × GCMState) :=
  if s.isEncryption then
    .error (.cipherMode "The cipher mode has not been initialized for decryption!")
  else if !s.isInitialized && !s.isFinalized then
    .error (.cipherMode "The cipher mode has not been initialized!")
  else if t < 12 ∨ 16 < t then
    .error (.cipherMode "The length must be minimum of 12 and maximum of MAC code size!")
  else
    match (if !s.isFinalized then gcmCalculateMac cfg s else .ok s) with
    | .error e => .error e
    | .ok s1 => .ok (decide (s1.msgTag.take t = input.take t), s1)

/-! ## Salsa20 initialization (Salsa20.cpp) -/

/-- The sigma constants, the bytes of the string used for 32-byte keys
(`Salsa20::SIGMA_INFO = "expand 32-byte k"`). -/
def sigmaInfo : List Nat :=
  [101, 120, 112, 97, 110, 100, 32, 51, 50, 45, 98, 121, 116, 101, 32, 107]

/-- The tau constants, the bytes of the string used for 16-byte keys
(`Salsa20::TAU_INFO = "expand 16-byte k"`). -/
def tauInfo : List Nat :=
  [101, 120, 112, 97, 110, 100, 32, 49, 54, 45, 98, 121, 116, 101, 32, 107]

/-- The validation and constant-selection part of `Salsa20::Initialize`
(Salsa20.cpp lines 116-146), returning the chosen `m_dstCode` (the
expansion constants later read by `Salsa20::Expand` at byte offsets 0, 4,
8 and 12).  The parallel-profile checks are omitted (sequential path).
Any nonempty `info` is installed verbatim; the key-length-based constants
are used only when `info` is empty. -/
def salsa20Init (key nonce info : List Nat) : Except String (List Nat) :=
  if nonce.length ≠ 8 then
    .error "Requires exactly 8 bytes of Nonce!"
  else if key.length ≠ 16 ∧ key.length ≠ 32 then
    .error "Key must be 16 or 32 bytes!"
  else if info.length ≠ 0 then
    .ok info
  else if key.length = 32 then
    .ok sigmaInfo
  else
    .ok tauInfo

/-! ## The Keccak-512 tree-hash driver (Keccak512.cpp) -/

/-- The per-instance constants of a `Keccak512` object: the Keccak-f
permutation over a 72-byte block and the 25-lane state (Keccak.cpp is not
under src, so the permutation is a parameter), the parallel flag, the
tree degree (`DEF_PRLDEGREE = 8`, the size of `m_dgtState`), the
parallel-profile block sizes, and the serialized per-leaf tree parameters
(`KeccakParams::ToBytes` with `NodeOffset = i`; KeccakParams is not under
src). -/
structure KeccakCfg where
  permute : List Nat → List Nat → List Nat
  parallel : Bool
  degree : Nat
  pBlockSize : Nat
  pMinSize : Nat
  leafParams : Nat → List Nat

/-- The number of leaf states (`m_dgtState.size()`, Keccak512.cpp lines
53-66): `degree` leaves when parallel, one otherwise. -/
def keccakStateCount (cfg : KeccakCfg) : Nat :=
  if cfg.parallel then cfg.degree else 1

/-- The message-buffer size (`m_msgBuffer.size()`): one 72-byte block per
leaf. -/
def keccakBufSize (cfg : KeccakCfg) : Nat :=
  keccakStateCount cfg * 72

/-- `Keccak512State::Reset` (Keccak512.h lines 92-107): all 25 lanes
zero except lanes 1, 2, 8, 12, 17 and 20, which are set to all-ones (the
complemented Keccak variant). -/
def keccakStateInit : List Nat :=
  (List.range 25).map (fun i =>
    if i = 1 ∨ i = 2 ∨ i = 8 ∨ i = 12 ∨ i = 17 ∨ i = 20 then 2 ^ 64 - 1 else 0)

/-- The state of a `Keccak512` object: the message buffer, the byte count
in it, and the leaf states. -/
structure KeccakState where
  msgBuffer : List Nat
  msgLength : Nat
  dgtState : List (List Nat)
deriving DecidableEq

/-- `Keccak512::Compress` (Keccak512.cpp lines 316-319): permute one
72-byte block at `off` into the state. -/
def keccakCompress (cfg : KeccakCfg) (input : List Nat) (off : Nat) (st : List Nat) :
    List Nat :=
  cfg.permute ((input.drop off).take 72) st

/-- `Keccak512::Reset` (Keccak512.cpp lines 205-220): clear the buffer and
count, reset every leaf state, and in parallel mode absorb the serialized
tree parameters (with the leaf index as node offset) into each leaf. -/
def keccakReset (cfg : KeccakCfg) : KeccakState :=
  { msgBuffer := List.replicate (keccakBufSize cfg) 0
    msgLength := 0
    dgtState := (List.range (keccakStateCount cfg)).map (fun i =>
      if cfg.parallel then keccakCompress cfg (cfg.leafParams i) 0 keccakStateInit
      else keccakStateInit) }

/-- Bitwise complement of a 64-bit lane (the C++ operator applied to a
`ulong`). -/
def lane64Not (v : Nat) : Nat :=
  2 ^ 64 - 1 - v % 2 ^ 64

/-- `Keccak512::HashFinal` (Keccak512.cpp lines 321-332): write the pad
byte 1 after the message, set the top bit of the block's last byte,
compress the block, and un-complement lanes 1, 2, 8, 12 and 17.  The
buffer is threaded through because the source pads in place. -/
def keccakHashFinal (cfg : KeccakCfg) (buf : List Nat) (off len : Nat) (st : List Nat) :
    List Nat × List Nat :=
  let buf1 := buf.set (off + len) 1
  let buf2 := buf1.set (off + 71) (buf1.getD (off + 71) 0 ||| 128)
  let st1 := keccakCompress cfg buf2 off st
  (buf2, st1.mapIdx (fun i v =>
    if i = 1 ∨ i = 2 ∨ i = 8 ∨ i = 12 ∨ i = 17 then lane64Not v else v))

/-- The iteration count of the do-while loop in `Keccak512::ProcessLeaf`
(Keccak512.cpp lines 334-343): the body runs at least once and then while
bytes remain, consuming `step` bytes per pass. -/
def leafIters (len step : Nat) : Nat :=
  if step = 0 then 1 else max 1 ((len + step - 1) / step)

/-- `Keccak512::ProcessLeaf`: compress strides of the input `step =
ParallelMinimumSize` bytes apart, starting at `off`. -/
def processLeaf (cfg : KeccakCfg) (input : List Nat) (off : Nat) (len : Nat)
    (st : List Nat) : List Nat :=
  (List.range (leafIters len cfg.pMinSize)).foldl
    (fun acc k => keccakCompress cfg input (off + k * cfg.pMinSize) acc) st

/-- The while loop of the sequential branch of `Keccak512::Update`
(Keccak512.cpp lines 297-304): compress full 72-byte blocks of the input,
returning the state and the offset and length left over. -/
def seqAbsorb (cfg : KeccakCfg) (input : List Nat) (off len : Nat) (st : List Nat) :
    List Nat × Nat × Nat :=
  if len < 72 then (st, off, len)
  else seqAbsorb cfg input (off + 72) (len - 72) (keccakCompress cfg input off st)
termination_by len
decreasing_by omega

/-- `Keccak512::Update` (Keccak512.cpp lines 228-312) on `input` (offset
0, the full length, as `Compute` calls it).  Parallel mode: flush a
filling buffer across the leaves, stream parallel blocks, stream
remaining minimum-size strides, and buffer the tail.  Sequential mode:
flush, compress full blocks, and buffer the tail. -/
def keccakUpdate (cfg : KeccakCfg) (s : KeccakState) (input : List Nat) : KeccakState :=
  if input.length = 0 then s
  else if cfg.parallel then
    let len0 := input.length
    let flush := s.msgLength ≠ 0 ∧ len0 + s.msgLength ≥ keccakBufSize cfg
    let rmd := keccakBufSize cfg - s.msgLength
    let buf1 := if flush then writeRange s.msgBuffer s.msgLength (input.take rmd)
                else s.msgBuffer
    let st1 := if flush then s.dgtState.mapIdx (fun i st => keccakCompress cfg buf1 (i * 72) st)
               else s.dgtState
    let ml1 := if flush then 0 else s.msgLength
    let off1 := if flush then rmd else 0
    let len1 := if flush then len0 - rmd else len0
    let prc := if len1 ≥ cfg.pBlockSize then len1 - len1 % cfg.pBlockSize else 0
    let st2 := if len1 ≥ cfg.pBlockSize then
                 st1.mapIdx (fun i st => processLeaf cfg input (off1 + i * 72) prc st)
               else st1
    let off2 := off1 + prc
    let len2 := len1 - prc
    let prm := if len2 ≥ cfg.pMinSize then len2 - len2 % cfg.pMinSize else 0
    let st3 := if len2 ≥ cfg.pMinSize then
                 st2.mapIdx (fun i st => processLeaf cfg input (off2 + i * 72) prm st)
               else st2
    let off3 := off2 + prm
    let len3 := len2 - prm
    if len3 ≠ 0 then
      { msgBuffer := writeRange buf1 ml1 ((input.drop off3).take len3)
        msgLength := ml1 + len3, dgtState := st3 }
    else
      { msgBuffer := buf1, msgLength := ml1, dgtState := st3 }
  else
    let len0 := input.length
    let flush := s.msgLength ≠ 0 ∧ s.msgLength + len0 ≥ 72
    let rmd := 72 - s.msgLength
    let buf1 := if flush then writeRange s.msgBuffer s.msgLength (input.take rmd)
                else s.msgBuffer
    let st1 := if flush then keccakCompress cfg buf1 0 (s.dgtState.getD 0 [])
               else s.dgtState.getD 0 []
    let ml1 := if flush then 0 else s.msgLength
    let off1 := if flush then rmd else 0
    let len1 := if flush then len0 - rmd else len0
    let r := seqAbsorb cfg input off1 len1 st1
    let len2 := r.2.2
    if len2 ≠ 0 then
      { msgBuffer := writeRange buf1 ml1 ((input.drop r.2.1).take len2)
        msgLength := ml1 + len2, dgtState := [r.1] }
    else
      { msgBuffer := buf1, msgLength := ml1, dgtState := [r.1] }

/-- The leaf-finalization loop of the parallel branch of
`Keccak512::Finalize` (Keccak512.cpp lines 137-148): while buffered bytes
remain, finalize up to one block into the next leaf state, padding in
place. -/
def leafFinalLoop (cfg : KeccakCfg) (buf : List Nat) (msgLen blkCtr : Nat)
    (states : List (List Nat)) : List Nat × List (List Nat) :=
  if _h : msgLen = 0 then (buf, states)
  else
    let r := keccakHashFinal cfg buf (blkCtr * 72) (min 72 msgLen) (states.getD blkCtr [])
    leafFinalLoop cfg r.1 (msgLen - min 72 msgLen) (blkCtr + 1) (states.set blkCtr r.2)
termination_by msgLen
decreasing_by omega

/-- Little-endian 8-byte encoding of a 64-bit lane. -/
def le8Bytes (n : Nat) : List Nat :=
  (List.range 8).map (fun i => n / 256 ^ i % 256)

/-- `IntUtils::LeULL512ToBlock`: the first eight lanes of a state as 64
little-endian bytes (the digest extraction). -/
def leULL512 (st : List Nat) : List Nat :=
  ((st.take 8).map le8Bytes).flatten

/-- `Keccak512::Finalize` (Keccak512.cpp lines 126-190): pad and finalize
each leaf, concatenate the leaf digests at block stride into the buffer,
compress full blocks into a fresh root state, finalize the root, emit the
64-byte digest, and reset the instance.  Returns the digest and the state
the instance is left in. -/
def keccakFinalize (cfg : KeccakCfg) (s : KeccakState) : List Nat × KeccakState :=
  if cfg.parallel then
    let buf0 := s.msgBuffer.take s.msgLength
        ++ List.replicate (keccakBufSize cfg - s.msgLength) 0
    let r1 := leafFinalLoop cfg buf0 s.msgLength 0 s.dgtState
    let buf2 := (List.range (keccakStateCount cfg)).foldl
        (fun b i => writeRange b (i * 72) (leULL512 (r1.2.getD i []))) r1.1
    let ml2 := keccakStateCount cfg * 64
    let blkRmd := if ml2 > 72 then ml2 - ml2 % 72 else 0
    let root1 := (List.range (blkRmd / 72)).foldl
        (fun st i => keccakCompress cfg buf2 (i * 72) st) keccakStateInit
    let r2 := keccakHashFinal cfg buf2 blkRmd (ml2 - blkRmd) root1
    (leULL512 r2.2, keccakReset cfg)
  else
    let buf0 := s.msgBuffer.take s.msgLength
        ++ List.replicate (keccakBufSize cfg - s.msgLength) 0
    let r := keccakHashFinal cfg buf0 0 s.msgLength (s.dgtState.getD 0 [])
    (leULL512 r.2, keccakReset cfg)

/-- Modelled from the spec: `ParallelOptions::SetMaxDegree` is not under
src; per the specification (section 4.E failure semantics) the parallel
degree must be even and must not exceed the CPU core count, and an
invalid degree fails the call. -/
def parallelOptionsSetMaxDegree (procCount degree : Nat) : Except String Nat :=
  if degree % 2 ≠ 0 ∨ degree > procCount then
    .error "The parallel degree is invalid!"
  else
    .ok degree

/-- `Keccak512::ParallelMaxDegree` (Keccak512.cpp lines 192-203): refuse a
zero degree, a degree above 254, and an odd degree, then hand the degree
to the parallel profile. -/
def keccakParallelMaxDegree (procCount degree : Nat) : Except String Nat :=
  if degree = 0 then
    .error "Parallel degree can not be zero!"
  else if degree > 254 then
    .error "Parallel degree can not exceed 254!"
  else if degree % 2 ≠ 0 then
    .error "Parallel degree must be an even number!"
  else
    parallelOptionsSetMaxDegree procCount degree

/-! ## BlakeB512 (BlakeB512.h) -/

/-- `BlakeB512::Name` (BlakeB512.h lines 179-185): both the parallel and
the sequential branch return the literal "BlakeBP512". -/
def blakeB512Name (isParallel : Bool) : String :=
  if isParallel then "BlakeBP512" else "BlakeBP512"

/-- `BlakeB512::Enumeral` (BlakeB512.h lines 190-196), which does
distinguish the two modes. -/
def blakeB512Enumeral (isParallel : Bool) : String :=
  if isParallel then "BlakeBP512" else "BlakeB512"

/-! ## SymmetricKey serialization (SymmetricKey.cpp) -/

/-- The `(key, nonce, info)` container (`SymmetricKey`). -/
structure SymKey where
  key : List Nat
  nonce : List Nat
  info : List Nat
deriving DecidableEq

/-- A 16-bit little-endian length prefix (what `StreamWriter::Write` emits
for a `ushort`; StreamWriter is not under src and is modelled from the
spec's serialization format). -/
def le16 (n : Nat) : List Nat :=
  [n % 256, n / 256 % 256]

/-- `SymmetricKey::Serialize` (SymmetricKey.cpp lines 132-155): three
16-bit little-endian length prefixes for key, nonce and info, followed by
the raw byte ranges (a zero-length field contributes no bytes). -/
def symmetricKeySerialize (k : SymKey) : List Nat :=
  le16 k.key.length ++ le16 k.nonce.length ++ le16 k.info.length
    ++ k.key ++ k.nonce ++ k.info

/-- What `StreamReader::ReadInt<short>` yields from two little-endian
bytes : a SIGNED 16-bit value (StreamReader is not under src; the signed
type is taken from the `short` in SymmetricKey.cpp lines 110-112). -/
def readShort (b0 b1 : Nat) : Int :=
  if b0 % 256 + 256 * (b1 % 256) < 32768 then ((b0 % 256 + 256 * (b1 % 256) : Nat) : Int)
  else ((b0 % 256 + 256 * (b1 % 256) : Nat) : Int) - 65536

/-- `SymmetricKey::DeSerialize` (SymmetricKey.cpp lines 107-125): read the
three signed length prefixes, read each byte range only when its length
is strictly positive, and build the container; the three-argument
constructor (lines 68-78) throws when key, nonce and info are all empty,
and a stream shorter than the 6-byte header cannot be read. -/
def symmetricKeyDeSerialize (s : List Nat) : Option SymKey :=
  match s with
  | k0 :: k1 :: n0 :: n1 :: i0 :: i1 :: rest =>
    let kL := readShort k0 k1
    let nL := readShort n0 n1
    let iL := readShort i0 i1
    let key := if 0 < kL then rest.take kL.toNat else []
    let r1 := if 0 < kL then rest.drop kL.toNat else rest
    let nonce := if 0 < nL then r1.take nL.toNat else []
    let r2 := if 0 < nL then r1.drop nL.toNat else r1
    let info := if 0 < iL then r2.take iL.toNat else []
    if key = [] ∧ nonce = [] ∧ info = [] then none
    else some { key := key, nonce := nonce, info := info }
  | _ => none

/-! ## GCM usage scenarios

The call sequences the round-trip claim describes, written out as the
header's usage examples do: construct, initialize, set the associated
data, transform, then finalize (encryption) or verify (decryption). -/

/-- One encryption session on a fresh instance: returns the ciphertext
and the tag of the requested length. -/
def gcmEncryptRun (cfg : GCMConfig) (key nonce aad pt : List Nat) (t : Nat) :
    Except GCMErr (List Nat × List Nat) :=
  Except.bind (gcmInit cfg true key nonce gcmFresh) (fun s1 =>
    Except.bind (gcmSetAssociatedData s1 aad) (fun s2 =>
      Except.map (fun f => ((gcmTransform cfg s2 pt).1, f.1))
        (gcmFinalize cfg (gcmTransform cfg s2 pt).2 t)))

/-- One decryption session on a fresh instance: returns the recovered
plaintext and the verification verdict on the supplied tag. -/
def gcmDecryptRun (cfg : GCMConfig) (key nonce aad ct tag : List Nat) (t : Nat) :
    Except GCMErr (List Nat × Bool) :=
  Except.bind (gcmInit cfg false key nonce gcmFresh) (fun s1 =>
    Except.bind (gcmSetAssociatedData s1 aad) (fun s2 =>
      Except.map (fun v => ((gcmTransform cfg s2 ct).1, v.1))
        (gcmVerify cfg (gcmTransform cfg s2 ct).2 tag t)))

theorem exceptBind_ok {A B E : Type} (a : A) (f : A → Except E B) :
    Except.bind (Except.ok a) f = f a := rfl

theorem exceptMap_ok {A B E : Type} (a : A) (f : A → B) :
    Except.map f (Except.ok a : Except E A) = Except.ok (f a) := rfl

/-! ## Supporting lemmas -/

theorem leIncrBytes_length (l : List Nat) : (leIncrBytes l).length = l.length := by
  induction l with
  | nil => rfl
  | cons b bs ih =>
    simp only [leIncrBytes]
    split <;> simp [ih]

theorem beIncrBytes_length (l : List Nat) : (beIncrBytes l).length = l.length := by
  simp [beIncrBytes, leIncrBytes_length]

theorem leIncrBytes_ne (l : List Nat) (h : l ≠ []) : leIncrBytes l ≠ l := by
  cases l with
  | nil => exact absurd rfl h
  | cons b bs =>
    simp only [leIncrBytes]
    split
    · intro hc
      have hb : b = 255 := by omega
      have := List.head_eq_of_cons_eq hc
      omega
    · intro hc
      have := List.head_eq_of_cons_eq hc
      omega

theorem beIncrBytes_ne (l : List Nat) (h : l ≠ []) : beIncrBytes l ≠ l := by
  intro hc
  have h1 : leIncrBytes l.reverse = l.reverse := by
    have := congrArg List.reverse hc
    simpa [beIncrBytes] using this
  have h2 : l.reverse ≠ [] := by
    simpa using h
  exact leIncrBytes_ne l.reverse h2 h1

theorem zipXor_length (a b : List Nat) :
    (zipXor a b).length = min a.length b.length := by
  simp [zipXor]

theorem zipXor_cancel (a : List Nat) :
    ∀ b : List Nat, a.length ≤ b.length → zipXor (zipXor a b) b = a := by
  induction a with
  | nil => intro b _; simp [zipXor]
  | cons x xs ih =>
    intro b hb
    cases b with
    | nil => simp at hb
    | cons y ys =>
      simp only [zipXor, List.zipWith_cons_cons]
      simp only [List.length_cons] at hb
      have hxy : x ^^^ y ^^^ y = x := Nat.xor_cancel_right y x
      have hrest := ih ys (by omega)
      simp only [zipXor] at hrest
      rw [hxy, hrest]

theorem zipXor_split (ks1 : List Nat) :
    ∀ (a ks2 : List Nat),
      zipXor a (ks1 ++ ks2) =
        zipXor (a.take ks1.length) ks1 ++ zipXor (a.drop ks1.length) ks2 := by
  induction ks1 with
  | nil => intro a ks2; simp [zipXor]
  | cons y ys ih =>
    intro a ks2
    cases a with
    | nil => simp [zipXor]
    | cons x xs =>
      simp only [List.cons_append, List.length_cons, List.take_succ_cons,
        List.drop_succ_cons, zipXor, List.zipWith_cons_cons]
      have := ih xs ks2
      simp only [zipXor] at this
      rw [this]

theorem ctrProcess_nil (E : List Nat → List Nat) (ctr : List Nat) :
    ctrProcess E ctr [] = ([], ctr) := by
  simp [ctrProcess]

theorem ctrProcess_cons (E : List Nat → List Nat) (ctr input : List Nat)
    (h : input ≠ []) :
    ctrProcess E ctr input =
      (zipXor (input.take 16) (E ctr) ++ (ctrProcess E (beIncrBytes ctr) (input.drop 16)).1,
       (ctrProcess E (beIncrBytes ctr) (input.drop 16)).2) := by
  rw [ctrProcess]
  simp [h]

theorem ctrProcess_length_aux (E : List Nat → List Nat)
    (hE : ∀ b : List Nat, b.length = 16 → (E b).length = 16) :
    ∀ (n : Nat) (input ctr : List Nat), input.length ≤ n → ctr.length = 16 →
      ((ctrProcess E ctr input).1).length = input.length := by
  intro n
  induction n with
  | zero =>
    intro input ctr h _
    have : input = [] := List.eq_nil_of_length_eq_zero (Nat.le_zero.mp h)
    subst this
    simp [ctrProcess_nil]
  | succ n ih =>
    intro input ctr h hc
    by_cases hnil : input = []
    · subst hnil; simp [ctrProcess_nil]
    · rw [ctrProcess_cons E ctr input hnil]
      have hlen : 1 ≤ input.length := by
        cases input with
        | nil => exact absurd rfl hnil
        | cons _ _ => simp
      have hdrop : (input.drop 16).length ≤ n := by
        simp only [List.length_drop]; omega
      have hbi : (beIncrBytes ctr).length = 16 := by
        rw [beIncrBytes_length, hc]
      rw [List.length_append, zipXor_length, hE ctr hc,
        ih (input.drop 16) (beIncrBytes ctr) hdrop hbi]
      simp only [List.length_take, List.length_drop]
      omega

theorem ctrProcess_length (E : List Nat → List Nat)
    (hE : ∀ b : List Nat, b.length = 16 → (E b).length = 16)
    (input ctr : List Nat) (hc : ctr.length = 16) :
    ((ctrProcess E ctr input).1).length = input.length :=
  ctrProcess_length_aux E hE input.length input ctr le_rfl hc

theorem ctrProcess_roundtrip_aux (E : List Nat → List Nat)
    (hE : ∀ b : List Nat, b.length = 16 → (E b).length = 16) :
    ∀ (n : Nat) (input ctr : List Nat), input.length ≤ n → ctr.length = 16 →
      (ctrProcess E ctr (ctrProcess E ctr input).1).1 = input := by
  intro n
  induction n with
  | zero =>
    intro input ctr h _
    have : input = [] := List.eq_nil_of_length_eq_zero (Nat.le_zero.mp h)
    subst this
    simp [ctrProcess_nil]
  | succ n ih =>
    intro input ctr h hc
    by_cases hnil : input = []
    · subst hnil; simp [ctrProcess_nil]
    · have hlen : 1 ≤ input.length := by
        cases input with
        | nil => exact absurd rfl hnil
        | cons _ _ => simp
      have hks : (E ctr).length = 16 := hE ctr hc
      have hbi : (beIncrBytes ctr).length = 16 := by
        rw [beIncrBytes_length, hc]
      have hdrop : (input.drop 16).length ≤ n := by
        simp only [List.length_drop]; omega
      set out1 := zipXor (input.take 16) (E ctr) with hout1
      have hlen1 : out1.length = min 16 input.length := by
        rw [hout1, zipXor_length, hks, List.length_take]
        omega
      set rest1 := (ctrProcess E (beIncrBytes ctr) (input.drop 16)).1 with hrest1
      have hfst : (ctrProcess E ctr input).1 = out1 ++ rest1 := by
        rw [ctrProcess_cons E ctr input hnil]
      have hfullne : out1 ++ rest1 ≠ [] := by
        intro hcon
        have : out1.length = 0 := by
          have := congrArg List.length hcon
          simp only [List.length_append, List.length_nil] at this
          omega
        omega
      rw [hfst, ctrProcess_cons E ctr _ hfullne]
      by_cases hbig : 16 ≤ input.length
      · have hout16 : out1.length = 16 := by omega
        have htake : (out1 ++ rest1).take 16 = out1 := by
          rw [← hout16]; exact List.take_left out1 rest1
        have hdrop16 : (out1 ++ rest1).drop 16 = rest1 := by
          rw [← hout16]; exact List.drop_left out1 rest1
        have htakelen : (input.take 16).length ≤ (E ctr).length := by
          rw [hks, List.length_take]; omega
        have hcancel : zipXor out1 (E ctr) = input.take 16 := by
          rw [hout1]; exact zipXor_cancel (input.take 16) (E ctr) htakelen
        have hih : (ctrProcess E (beIncrBytes ctr) rest1).1 = input.drop 16 := by
          rw [hrest1]; exact ih (input.drop 16) (beIncrBytes ctr) hdrop hbi
        rw [htake, hdrop16, hcancel, hih]
        exact List.take_append_drop 16 input
      · have hdropnil : input.drop 16 = [] := by
          apply List.eq_nil_of_length_eq_zero
          simp only [List.length_drop]; omega
        have hrestnil : rest1 = [] := by
          rw [hrest1, hdropnil]; simp [ctrProcess_nil]
        have htakeid : input.take 16 = input := by
          apply List.take_of_length_le; omega
        have hout1' : out1 = zipXor input (E ctr) := by rw [hout1, htakeid]
        have houtlen : out1.length ≤ 16 := by omega
        have htake : (out1 ++ rest1).take 16 = out1 := by
          rw [hrestnil, List.append_nil]
          exact List.take_of_length_le houtlen
        have hdrop16 : (out1 ++ rest1).drop 16 = [] := by
          rw [hrestnil, List.append_nil]
          apply List.eq_nil_of_length_eq_zero
          simp only [List.length_drop]; omega
        have hcancel : zipXor out1 (E ctr) = input := by
          rw [hout1']
          exact zipXor_cancel input (E ctr) (by omega)
        rw [htake, hdrop16, hcancel]
        simp [ctrProcess_nil]

theorem ctrProcess_roundtrip (E : List Nat → List Nat)
    (hE : ∀ b : List Nat, b.length = 16 → (E b).length = 16)
    (input ctr : List Nat) (hc : ctr.length = 16) :
    (ctrProcess E ctr (ctrProcess E ctr input).1).1 = input :=
  ctrProcess_roundtrip_aux E hE input.length input ctr le_rfl hc

theorem ctrProcess_eq_keystream_aux (E : List Nat → List Nat)
    (hE : ∀ b : List Nat, b.length = 16 → (E b).length = 16) :
    ∀ (n : Nat) (input ctr : List Nat), input.length ≤ n → ctr.length = 16 →
      (ctrProcess E ctr input).1 =
        zipXor input (ctrKeystream E ctr ((input.length + 15) / 16)) := by
  intro n
  induction n with
  | zero =>
    intro input ctr h _
    have : input = [] := List.eq_nil_of_length_eq_zero (Nat.le_zero.mp h)
    subst this
    simp [ctrProcess_nil, ctrKeystream, zipXor]
  | succ n ih =>
    intro input ctr h hc
    by_cases hnil : input = []
    · subst hnil; simp [ctrProcess_nil, ctrKeystream, zipXor]
    · have hlen : 1 ≤ input.length := by
        cases input with
        | nil => exact absurd rfl hnil
        | cons _ _ => simp
      have hks : (E ctr).length = 16 := hE ctr hc
      have hbi : (beIncrBytes ctr).length = 16 := by
        rw [beIncrBytes_length, hc]
      have hdrop : (input.drop 16).length ≤ n := by
        simp only [List.length_drop]; omega
      have hblocks : (input.length + 15) / 16 = ((input.drop 16).length + 15) / 16 + 1 := by
        simp only [List.length_drop]; omega
      rw [ctrProcess_cons E ctr input hnil, hblocks, ctrKeystream,
        zipXor_split (E ctr) input (ctrKeystream E (beIncrBytes ctr) _), hks,
        ih (input.drop 16) (beIncrBytes ctr) hdrop hbi]

theorem beBytes16_length (n : Nat) : (beBytes16 n).length = 16 := by
  simp [beBytes16]

theorem ctrProcess_block16 (E : List Nat → List Nat) (ctr input : List Nat)
    (h : input.length = 16) :
    ctrProcess E ctr input = (zipXor input (E ctr), beIncrBytes ctr) := by
  have hne : input ≠ [] := by
    intro hc; subst hc; simp at h
  rw [ctrProcess_cons E ctr input hne,
    List.take_of_length_le (le_of_eq h),
    List.drop_eq_nil_of_le (le_of_eq h), ctrProcess_nil]
  simp

theorem listResize_length (l : List Nat) (n : Nat) : (listResize l n).length = n := by
  simp only [listResize, List.length_append, List.length_take, List.length_replicate]
  omega

theorem gcmDeriveJ0_length (h : Nat) (nonce : List Nat) :
    (gcmDeriveJ0 h nonce).length = 16 := by
  unfold gcmDeriveJ0
  split
  · rw [List.length_set, listResize_length]
  · exact beBytes16_length _

/-! ## Derived characterizations of the GCM operations -/

/-- The state a keyed `GCM::Initialize` leaves behind, written out: the
GHASH subkey is `E_K(0^128)`, the CTR counter stands at J0+1, and
`m_gcmVector` holds the encryption of the zero block under counter J0
(that is, `E_K(J0)`). -/
def gcmPostInit (cfg : GCMConfig) (enc : Bool) (key nonce : List Nat) : GCMState :=
  { aadData := [], aadLoaded := false, aadPreserve := false, aadSize := 0
    autoIncrement := false, checkSum := 0
    ctrKey := key
    ctrCounter := beIncrBytes (gcmDeriveJ0 (beToNat (cfg.E key (List.replicate 16 0))) nonce)
    ctrKeyed := true
    gcmH := some (beToNat (cfg.E key (List.replicate 16 0)))
    gcmKey := key, gcmNonce := nonce
    gcmVector := zipXor (List.replicate 16 0)
      (cfg.E key (gcmDeriveJ0 (beToNat (cfg.E key (List.replicate 16 0))) nonce))
    isEncryption := enc, isFinalized := false, isInitialized := true
    msgSize := 0, msgTag := List.replicate 16 0 }

theorem gcmInit_keyed (cfg : GCMConfig) (enc : Bool) (key nonce : List Nat)
    (h8 : ¬ nonce.length < 8) (hk : key ≠ []) (hl : key.length ∈ cfg.legalKeySizes) :
    gcmInit cfg enc key nonce gcmFresh = .ok (gcmPostInit cfg enc key nonce) := by
  have hcond : ¬ ((!(cfg.legalKeySizes.contains key.length)) = true) := by
    simp [hl]
  rw [gcmInit, if_neg h8, if_neg hk, if_neg hcond, gcmInitBody]
  simp only [gcmFresh, Option.getD_some]
  rw [ctrProcess_block16 (cfg.E key)
    (gcmDeriveJ0 (beToNat (cfg.E key (List.replicate 16 0))) nonce)
    (List.replicate 16 0) (by simp)]
  rfl

theorem gcmFinalize_open (cfg : GCMConfig) (s : GCMState) (t : Nat)
    (hs : s.isInitialized = true) (ht : ¬ (t < 12 ∨ 16 < t)) :
    gcmFinalize cfg s t =
      match gcmCalculateMac cfg s with
      | .error e => .error e
      | .ok s1 => .ok (s1.msgTag.take t, s1) := by
  rw [gcmFinalize, hs]
  rw [if_neg (by simp), if_neg ht]

theorem gcmVerify_open (cfg : GCMConfig) (s : GCMState) (input : List Nat) (t : Nat)
    (henc : s.isEncryption = false) (hini : s.isInitialized = true)
    (hfz : s.isFinalized = false) (ht : ¬ (t < 12 ∨ 16 < t)) :
    gcmVerify cfg s input t =
      match gcmCalculateMac cfg s with
      | .error e => .error e
      | .ok s1 => .ok (decide (s1.msgTag.take t = input.take t), s1) := by
  rw [gcmVerify, henc, hini, hfz]
  rw [if_neg (by simp), if_neg (by simp), if_neg ht]
  rfl

/-! ## Claim C1 -/

/-- C1: for every block-cipher engine with 16-byte output blocks, key of
a legal nonzero size, nonce of an accepted length (made of bytes),
associated data, plaintext, and tag length t in [12, 16]: initializing a
fresh GCM instance for encryption, setting the associated data,
transforming the plaintext and finalizing, then initializing a fresh
instance for decryption with the same key and nonce, setting the same
associated data and transforming the produced ciphertext, recovers the
plaintext, and Verify on the produced tag returns true. -/
theorem gcm_encrypt_decrypt_roundtrip (cfg : GCMConfig) (key nonce aad pt : List Nat)
    (t : Nat)
    (hE : ∀ b : List Nat, b.length = 16 → (cfg.E key b).length = 16)
    (hk : key ≠ []) (hl : cfg.legalKeySizes.contains key.length = true)
    (hn : 8 ≤ nonce.length) (ht1 : 12 ≤ t) (ht2 : t ≤ 16) :
    ∃ ct tag : List Nat,
      gcmEncryptRun cfg key nonce aad pt t = .ok (ct, tag) ∧
      gcmDecryptRun cfg key nonce aad ct tag t = .ok (pt, true) := by
  have h8 : ¬ (nonce.length < 8) := by omega
  have hl2 : key.length ∈ cfg.legalKeySizes := by simpa using hl
  have htg : ¬ (t < 12 ∨ 16 < t) := by omega
  set A := beToNat (cfg.E key (List.replicate 16 0)) with hA
  set J := gcmDeriveJ0 A nonce with hJ
  have hJlen : J.length = 16 := gcmDeriveJ0_length A nonce
  set C := beIncrBytes J with hC
  have hClen : C.length = 16 := by rw [hC, beIncrBytes_length, hJlen]
  set V := zipXor (List.replicate 16 0) (cfg.E key J) with hV
  set ct := (ctrProcess (cfg.E key) C pt).1 with hct
  have hctlen : ct.length = pt.length := by
    rw [hct]; exact ctrProcess_length (cfg.E key) hE pt C hClen
  have hback : (ctrProcess (cfg.E key) C ct).1 = pt := by
    rw [hct]; exact ctrProcess_roundtrip (cfg.E key) hE pt C hClen
  set cs1 := ghashAbsorb A 0 aad with hcs1
  set cs2 := ghashAbsorb A cs1 ct with hcs2
  set tagN := ghashFinalizeBlock A cs2 aad.length (0 + pt.length) ^^^ beToNat V with htagN
  set S2e := { gcmPostInit cfg true key nonce with
    aadData := aad, checkSum := cs1, aadSize := aad.length, aadLoaded := true } with hS2e
  set S3e := { S2e with
    ctrCounter := (ctrProcess (cfg.E key) C pt).2, checkSum := cs2
    msgSize := 0 + pt.length } with hS3e
  set S4e := { S3e with
    aadData := List.replicate aad.length 0, aadLoaded := false, aadSize := 0
    checkSum := 0, gcmVector := List.replicate V.length 0
    isInitialized := false, isFinalized := true
    msgSize := 0, msgTag := beBytes16 tagN } with hS4e
  have hsetE : gcmSetAssociatedData (gcmPostInit cfg true key nonce) aad = .ok S2e := rfl
  have htrE : gcmTransform cfg S2e pt = (ct, S3e) := rfl
  have hmacE : gcmCalculateMac cfg S3e = .ok S4e := rfl
  refine ⟨ct, (beBytes16 tagN).take t, ?_, ?_⟩
  · rw [gcmEncryptRun, gcmInit_keyed cfg true key nonce h8 hk hl2]
    simp only [exceptBind_ok]
    rw [hsetE]
    simp only [exceptBind_ok]
    rw [htrE]
    simp only []
    rw [gcmFinalize_open cfg S3e t rfl htg, hmacE]
    rfl
  · set tagM := ghashFinalizeBlock A cs2 aad.length (0 + ct.length) ^^^ beToNat V with htagM
    have htagMN : tagM = tagN := by
      rw [htagM, htagN, hctlen]
    set S2d := { gcmPostInit cfg false key nonce with
      aadData := aad, checkSum := cs1, aadSize := aad.length, aadLoaded := true } with hS2d
    set S3d := { S2d with
      ctrCounter := (ctrProcess (cfg.E key) C ct).2
      checkSum := cs2
      msgSize := 0 + ct.length } with hS3d
    set S4d := { S3d with
      aadData := List.replicate aad.length 0, aadLoaded := false, aadSize := 0
      checkSum := 0, gcmVector := List.replicate V.length 0
      isInitialized := false, isFinalized := true
      msgSize := 0, msgTag := beBytes16 tagM } with hS4d
    have hsetD : gcmSetAssociatedData (gcmPostInit cfg false key nonce) aad = .ok S2d := rfl
    have htrD : gcmTransform cfg S2d ct =
        ((ctrProcess (cfg.E key) C ct).1, S3d) := rfl
    have hmacD : gcmCalculateMac cfg S3d = .ok S4d := rfl
    rw [gcmDecryptRun, gcmInit_keyed cfg false key nonce h8 hk hl2]
    simp only [exceptBind_ok]
    rw [hsetD]
    simp only [exceptBind_ok]
    rw [htrD]
    simp only []
    rw [gcmVerify_open cfg S3d ((beBytes16 tagN).take t) t rfl rfl rfl htg, hmacD]
    simp only []
    rw [hback]
    have hver : S4d.msgTag.take t = ((beBytes16 tagN).take t).take t := by
      rw [hS4d]
      simp only []
      rw [htagMN, List.take_take, Nat.min_self]
    rw [hver]
    simp only [List.take_take, Nat.min_self]
    rfl

/-- A concrete engine for witnesses: the identity block cipher with one
legal key size of 16 bytes. -/
def idCipherCfg : GCMConfig :=
  { E := fun _ b => b, legalKeySizes := [16] }

/-- Witness for C1 at a concrete engine, key, nonce, associated data,
plaintext and tag length. -/
theorem gcm_encrypt_decrypt_roundtrip_witness :
    ∃ ct tag : List Nat,
      gcmEncryptRun idCipherCfg (List.replicate 16 1) (List.replicate 12 2)
        [5, 6] [7, 8, 9] 12 = .ok (ct, tag) ∧
      gcmDecryptRun idCipherCfg (List.replicate 16 1) (List.replicate 12 2)
        [5, 6] ct tag 12 = .ok ([7, 8, 9], true) :=
  gcm_encrypt_decrypt_roundtrip idCipherCfg (List.replicate 16 1) (List.replicate 12 2)
    [5, 6] [7, 8, 9] 12 (fun _ h => h) (by decide) (by decide) (by decide)
    (by decide) (by decide)

theorem ctrProcess_ctr_length_aux (E : List Nat → List Nat) :
    ∀ (n : Nat) (input ctr : List Nat), input.length ≤ n →
      ((ctrProcess E ctr input).2).length = ctr.length := by
  intro n
  induction n with
  | zero =>
    intro input ctr h
    have : input = [] := List.eq_nil_of_length_eq_zero (Nat.le_zero.mp h)
    subst this
    simp [ctrProcess_nil]
  | succ n ih =>
    intro input ctr h
    by_cases hnil : input = []
    · subst hnil; simp [ctrProcess_nil]
    · have hlen : 1 ≤ input.length := by
        cases input with
        | nil => exact absurd rfl hnil
        | cons _ _ => simp
      have hdrop : (input.drop 16).length ≤ n := by
        simp only [List.length_drop]; omega
      rw [ctrProcess_cons E ctr input hnil]
      rw [ih (input.drop 16) (beIncrBytes ctr) hdrop, beIncrBytes_length]

theorem ctrProcess_ctr_length (E : List Nat → List Nat) (input ctr : List Nat) :
    ((ctrProcess E ctr input).2).length = ctr.length :=
  ctrProcess_ctr_length_aux E input.length input ctr le_rfl

/-! ## Claim C2 -/

/-- C2: withdrawal of the claimed error.  After a completed Finalize with
auto-increment disabled, the instance is indeed no longer initialized and
the `CEXASSERT` precondition of `GCM::Transform` is violated, but
`Transform` does not return an error: it is a void function whose only
guard is a debug assertion, and it still produces a full-length output
from the stale CTR state.  The claimed `InvalidState` error does not
exist in the code. -/
theorem gcm_transform_after_finalize_no_error (cfg : GCMConfig)
    (key nonce pt pt2 : List Nat) (t : Nat)
    (hE : ∀ b : List Nat, b.length = 16 → (cfg.E key b).length = 16)
    (hk : key ≠ []) (hl : cfg.legalKeySizes.contains key.length = true)
    (hn : 8 ≤ nonce.length) (ht1 : 12 ≤ t) (ht2 : t ≤ 16) :
    ∃ tag : List Nat, ∃ s3 : GCMState,
      gcmInit cfg true key nonce gcmFresh = .ok (gcmPostInit cfg true key nonce) ∧
      gcmFinalize cfg (gcmTransform cfg (gcmPostInit cfg true key nonce) pt).2 t =
        .ok (tag, s3) ∧
      s3.autoIncrement = false ∧
      s3.isInitialized = false ∧
      gcmTransformAssert s3 = false ∧
      ((gcmTransform cfg s3 pt2).1).length = pt2.length := by
  have h8 : ¬ (nonce.length < 8) := by omega
  have hl2 : key.length ∈ cfg.legalKeySizes := by simpa using hl
  have htg : ¬ (t < 12 ∨ 16 < t) := by omega
  set A := beToNat (cfg.E key (List.replicate 16 0)) with hA
  set J := gcmDeriveJ0 A nonce with hJ
  have hJlen : J.length = 16 := gcmDeriveJ0_length A nonce
  set C := beIncrBytes J with hC
  have hClen : C.length = 16 := by rw [hC, beIncrBytes_length, hJlen]
  set V := zipXor (List.replicate 16 0) (cfg.E key J) with hV
  set ct := (ctrProcess (cfg.E key) C pt).1 with hct
  set C2 := (ctrProcess (cfg.E key) C pt).2 with hC2
  have hC2len : C2.length = 16 := by
    rw [hC2, ctrProcess_ctr_length, hClen]
  set cs2 := ghashAbsorb A 0 ct with hcs2
  set tagN := ghashFinalizeBlock A cs2 0 (0 + pt.length) ^^^ beToNat V with htagN
  set S3 := { gcmPostInit cfg true key nonce with
    ctrCounter := C2, checkSum := cs2, msgSize := 0 + pt.length } with hS3
  set S4 := { S3 with
    aadData := List.replicate 0 0, aadLoaded := false, aadSize := 0
    checkSum := 0, gcmVector := List.replicate V.length 0
    isInitialized := false, isFinalized := true
    msgSize := 0, msgTag := beBytes16 tagN } with hS4
  have htr1 : gcmTransform cfg (gcmPostInit cfg true key nonce) pt = (ct, S3) := rfl
  have hmac : gcmCalculateMac cfg S3 = .ok S4 := rfl
  refine ⟨(beBytes16 tagN).take t, S4, gcmInit_keyed cfg true key nonce h8 hk hl2, ?_, rfl, rfl, rfl, ?_⟩
  · rw [htr1]
    simp only []
    rw [gcmFinalize_open cfg S3 t rfl htg, hmac]
  · have htr2 : (gcmTransform cfg S4 pt2).1 = (ctrProcess (cfg.E key) C2 pt2).1 := rfl
    rw [htr2]
    exact ctrProcess_length (cfg.E key) hE pt2 C2 hC2len

/-- Witness for C2 at the identity engine and concrete inputs. -/
theorem gcm_transform_after_finalize_no_error_witness :
    ∃ tag : List Nat, ∃ s3 : GCMState,
      gcmInit idCipherCfg true (List.replicate 16 1) (List.replicate 12 2) gcmFresh =
        .ok (gcmPostInit idCipherCfg true (List.replicate 16 1) (List.replicate 12 2)) ∧
      gcmFinalize idCipherCfg
        (gcmTransform idCipherCfg
          (gcmPostInit idCipherCfg true (List.replicate 16 1) (List.replicate 12 2))
          (List.replicate 16 7)).2 12 = .ok (tag, s3) ∧
      s3.autoIncrement = false ∧
      s3.isInitialized = false ∧
      gcmTransformAssert s3 = false ∧
      ((gcmTransform idCipherCfg s3 (List.replicate 16 9)).1).length =
        (List.replicate 16 9 : List Nat).length :=
  gcm_transform_after_finalize_no_error idCipherCfg (List.replicate 16 1)
    (List.replicate 12 2) (List.replicate 16 7) (List.replicate 16 9) 12
    (fun _ h => h) (by decide) (by decide) (by decide) (by decide) (by decide)

/-! ## Claim C3 -/

/-- C3: on an initialized instance, Transform in encryption mode outputs
the counter-mode encryption of the input (the XOR with the block
keystream starting at the current counter) and the new checksum absorbs
the produced ciphertext (the output); in decryption mode the output is
the same counter-mode transform but the checksum absorbs the input
ciphertext; in both modes the message-size counter grows by exactly the
transformed length. -/
theorem gcm_transform_order (cfg : GCMConfig) (s : GCMState) (input : List Nat)
    (hE : ∀ b : List Nat, b.length = 16 → (cfg.E s.ctrKey b).length = 16)
    (hc : s.ctrCounter.length = 16)
    (_hini : s.isInitialized = true) :
    (s.isEncryption = true →
      (gcmTransform cfg s input).1 =
        zipXor input (ctrKeystream (cfg.E s.ctrKey) s.ctrCounter ((input.length + 15) / 16)) ∧
      ((gcmTransform cfg s input).2).checkSum =
        ghashAbsorb (s.gcmH.getD 0) s.checkSum (gcmTransform cfg s input).1) ∧
    (s.isEncryption = false →
      (gcmTransform cfg s input).1 =
        zipXor input (ctrKeystream (cfg.E s.ctrKey) s.ctrCounter ((input.length + 15) / 16)) ∧
      ((gcmTransform cfg s input).2).checkSum =
        ghashAbsorb (s.gcmH.getD 0) s.checkSum input) ∧
    ((gcmTransform cfg s input).2).msgSize = s.msgSize + input.length := by
  have hks := ctrProcess_eq_keystream_aux (cfg.E s.ctrKey) hE input.length input
    s.ctrCounter le_rfl hc
  refine ⟨?_, ?_, ?_⟩
  · intro henc
    rw [gcmTransform, if_pos henc]
    constructor
    · exact hks
    · rfl
  · intro henc
    rw [gcmTransform, if_neg (by simp [henc])]
    constructor
    · exact hks
    · rfl
  · by_cases henc : s.isEncryption = true
    · rw [gcmTransform, if_pos henc]
    · rw [gcmTransform, if_neg henc]

/-- A concrete initialized encrypting state for the C3 witness. -/
def c3State : GCMState :=
  { gcmFresh with
    isInitialized := true, isEncryption := true
    ctrCounter := List.replicate 16 0, gcmH := some 0 }

/-- Witness for C3 at a concrete initialized encrypting state, the
identity engine, and a 20-byte input. -/
theorem gcm_transform_order_witness :
    (c3State.isEncryption = true →
      (gcmTransform idCipherCfg c3State (List.replicate 20 3)).1 =
        zipXor (List.replicate 20 3)
          (ctrKeystream (idCipherCfg.E c3State.ctrKey) c3State.ctrCounter
            (((List.replicate 20 3 : List Nat).length + 15) / 16)) ∧
      ((gcmTransform idCipherCfg c3State (List.replicate 20 3)).2).checkSum =
        ghashAbsorb (c3State.gcmH.getD 0) c3State.checkSum
          (gcmTransform idCipherCfg c3State (List.replicate 20 3)).1) ∧
    (c3State.isEncryption = false →
      (gcmTransform idCipherCfg c3State (List.replicate 20 3)).1 =
        zipXor (List.replicate 20 3)
          (ctrKeystream (idCipherCfg.E c3State.ctrKey) c3State.ctrCounter
            (((List.replicate 20 3 : List Nat).length + 15) / 16)) ∧
      ((gcmTransform idCipherCfg c3State (List.replicate 20 3)).2).checkSum =
        ghashAbsorb (c3State.gcmH.getD 0) c3State.checkSum (List.replicate 20 3)) ∧
    ((gcmTransform idCipherCfg c3State (List.replicate 20 3)).2).msgSize =
      c3State.msgSize + (List.replicate 20 3 : List Nat).length :=
  gcm_transform_order idCipherCfg c3State (List.replicate 20 3)
    (fun _ h => h) (by decide) rfl

/-! ## Claim C4 -/

/-- The J0 the spec prescribes for a nonce that is not 12 bytes long:
`GHASH_H(N)` including the length-encoding finalization block (zero AAD
bits, nonce length in bits).  Stated from the spec's words so the source
derivation can be compared against it. -/
def specGHASHH (h : Nat) (n : List Nat) : List Nat :=
  beBytes16 (gmul (ghashAbsorb h 0 n ^^^ (n.length * 8 % 2 ^ 64)) h)

/-- C4: the initial counter block J0 is `nonce || 0x00000001` exactly for
a 12-byte nonce and `GHASH_H(nonce)` (with the length-encoding
finalization block) for every other nonce; and Initialize succeeds for
both a 12-byte and a 13-byte nonce (with a legal nonzero key). -/
theorem gcm_j0_derivation (cfg : GCMConfig) (enc : Bool) (key nonce : List Nat) (h : Nat)
    (hk : key ≠ []) (hl : cfg.legalKeySizes.contains key.length = true) :
    (nonce.length = 12 → gcmDeriveJ0 h nonce = nonce ++ [0, 0, 0, 1]) ∧
    (nonce.length ≠ 12 → gcmDeriveJ0 h nonce = specGHASHH h nonce) ∧
    (nonce.length = 12 ∨ nonce.length = 13 →
      ∃ s : GCMState, gcmInit cfg enc key nonce gcmFresh = .ok s ∧ s.isInitialized = true) := by
  refine ⟨?_, ?_, ?_⟩
  · intro h12
    rw [gcmDeriveJ0, if_pos h12, listResize,
      List.take_of_length_le (by omega), h12]
    rw [show List.replicate (16 - 12) 0 = [0, 0, 0, 0] from rfl]
    rw [List.set_append]
    rw [if_neg (by omega), h12]
    rfl
  · intro h12
    rw [gcmDeriveJ0, if_neg h12, specGHASHH, ghashFinalizeBlock]
    simp
  · intro hlen
    have h8 : ¬ (nonce.length < 8) := by omega
    have hl2 : key.length ∈ cfg.legalKeySizes := by simpa using hl
    exact ⟨gcmPostInit cfg enc key nonce, gcmInit_keyed cfg enc key nonce h8 hk hl2, rfl⟩

/-- Witness for C4, applied at a 12-byte nonce and at a 13-byte nonce. -/
theorem gcm_j0_derivation_witness :
    (gcmDeriveJ0 5 (List.replicate 12 2) = List.replicate 12 2 ++ [0, 0, 0, 1]) ∧
    (gcmDeriveJ0 5 (List.replicate 13 2) = specGHASHH 5 (List.replicate 13 2)) ∧
    (∃ s : GCMState,
      gcmInit idCipherCfg true (List.replicate 16 1) (List.replicate 12 2) gcmFresh =
        .ok s ∧ s.isInitialized = true) ∧
    (∃ s : GCMState,
      gcmInit idCipherCfg true (List.replicate 16 1) (List.replicate 13 2) gcmFresh =
        .ok s ∧ s.isInitialized = true) :=
  ⟨(gcm_j0_derivation idCipherCfg true (List.replicate 16 1) (List.replicate 12 2) 5
      (by decide) (by decide)).1 (by decide),
   (gcm_j0_derivation idCipherCfg true (List.replicate 16 1) (List.replicate 13 2) 5
      (by decide) (by decide)).2.1 (by decide),
   (gcm_j0_derivation idCipherCfg true (List.replicate 16 1) (List.replicate 12 2) 5
      (by decide) (by decide)).2.2 (Or.inl (by decide)),
   (gcm_j0_derivation idCipherCfg true (List.replicate 16 1) (List.replicate 13 2) 5
      (by decide) (by decide)).2.2 (Or.inr (by decide))⟩

theorem gcmInit_not_cipherMode (cfg : GCMConfig) (enc : Bool) (key nonce : List Nat)
    (s : GCMState) : isCipherModeErr (gcmInit cfg enc key nonce s) = false := by
  rw [gcmInit]
  split
  · rfl
  · split
    · split
      · rfl
      · split
        · rfl
        · rfl
    · split
      · rfl
      · rfl

theorem gcmReset_gcmNonce (s : GCMState) : (gcmReset s).gcmNonce = s.gcmNonce := by
  rw [gcmReset]
  split <;> rfl

theorem gcmReset_ctrKeyed (s : GCMState) : (gcmReset s).ctrKeyed = s.ctrKeyed := by
  rw [gcmReset]
  split <;> rfl

theorem gcmCalculateMac_not_cipherMode (cfg : GCMConfig) (s : GCMState) :
    isCipherModeErr (gcmCalculateMac cfg s) = false := by
  rw [gcmCalculateMac]
  split
  · split
    · rename_i e heq
      have h := gcmInit_not_cipherMode cfg
        ((gcmReset { s with
            checkSum := ghashFinalizeBlock (s.gcmH.getD 0) s.checkSum s.aadSize s.msgSize
              ^^^ beToNat s.gcmVector
            msgTag := beBytes16 (ghashFinalizeBlock (s.gcmH.getD 0) s.checkSum s.aadSize
              s.msgSize ^^^ beToNat s.gcmVector) }).isEncryption) []
        (beIncrBytes (gcmReset { s with
            checkSum := ghashFinalizeBlock (s.gcmH.getD 0) s.checkSum s.aadSize s.msgSize
              ^^^ beToNat s.gcmVector
            msgTag := beBytes16 (ghashFinalizeBlock (s.gcmH.getD 0) s.checkSum s.aadSize
              s.msgSize ^^^ beToNat s.gcmVector) }).gcmNonce)
        (gcmReset { s with
            checkSum := ghashFinalizeBlock (s.gcmH.getD 0) s.checkSum s.aadSize s.msgSize
              ^^^ beToNat s.gcmVector
            msgTag := beBytes16 (ghashFinalizeBlock (s.gcmH.getD 0) s.checkSum s.aadSize
              s.msgSize ^^^ beToNat s.gcmVector) })
      rw [heq] at h
      exact h
    · rfl
  · rfl

theorem gcmCalculateMac_ok (cfg : GCMConfig) (s : GCMState)
    (hn8 : 8 ≤ s.gcmNonce.length) (hck : s.ctrKeyed = true) :
    ∃ s1 : GCMState, gcmCalculateMac cfg s = .ok s1 := by
  rw [gcmCalculateMac]
  split
  · rename_i hai
    set s0 := { s with
      checkSum := ghashFinalizeBlock (s.gcmH.getD 0) s.checkSum s.aadSize s.msgSize
        ^^^ beToNat s.gcmVector
      msgTag := beBytes16 (ghashFinalizeBlock (s.gcmH.getD 0) s.checkSum s.aadSize
        s.msgSize ^^^ beToNat s.gcmVector) } with hs0
    have hnonce : (gcmReset s0).gcmNonce = s.gcmNonce := by
      rw [gcmReset_gcmNonce, hs0]
    have hkeyed : (gcmReset s0).ctrKeyed = true := by
      rw [gcmReset_ctrKeyed, hs0]
      exact hck
    have hne : (gcmReset s0).gcmNonce ≠ [] := by
      rw [hnonce]
      intro hcon
      rw [hcon] at hn8
      simp at hn8
    have hinit : gcmInit cfg (gcmReset s0).isEncryption [] (beIncrBytes (gcmReset s0).gcmNonce)
        (gcmReset s0) = .ok (gcmInitBody cfg (gcmReset s0).isEncryption
          (beIncrBytes (gcmReset s0).gcmNonce) (gcmReset s0)) := by
      rw [gcmInit]
      rw [if_neg (by rw [beIncrBytes_length, hnonce]; omega)]
      rw [if_pos rfl]
      rw [if_neg (beIncrBytes_ne _ hne)]
      rw [if_neg (by simp [hkeyed])]
    rw [hinit]
    split
    · rename_i e heq
      simp at heq
    · rename_i s2 heq
      exact ⟨_, rfl⟩
  · exact ⟨_, rfl⟩

/-! ## Claim C5 -/

/-- C5 (amended): a CipherMode exception from Verify happens exactly in
encryption mode, on an instance neither initialized nor finalized, or
for a tag length outside [12, 16]; a CipherMode exception from Finalize
happens exactly on a not-currently-initialized instance or a tag length
outside [12, 16] (Finalize shares the length check but its
initialization check is stricter than Verify's); and in decryption mode
on an initialized-or-finalized instance with a tag length in range,
Verify returns the boolean byte comparison of the stored tag - a
mismatch is a returned false, not an exception. -/
theorem gcm_verify_error_conditions (cfg : GCMConfig) (s : GCMState) (input : List Nat)
    (t : Nat) (hn8 : 8 ≤ s.gcmNonce.length) (hck : s.ctrKeyed = true) :
    (isCipherModeErr (gcmVerify cfg s input t) = true ↔
      (s.isEncryption = true ∨ (s.isInitialized = false ∧ s.isFinalized = false) ∨
        t < 12 ∨ 16 < t)) ∧
    (isCipherModeErr (gcmFinalize cfg s t) = true ↔
      (s.isInitialized = false ∨ t < 12 ∨ 16 < t)) ∧
    (s.isEncryption = false → (s.isInitialized = true ∨ s.isFinalized = true) →
      12 ≤ t → t ≤ 16 →
      ∃ b : Bool, ∃ s1 : GCMState,
        gcmVerify cfg s input t = .ok (b, s1) ∧
        b = decide (s1.msgTag.take t = input.take t)) := by
  have hmacCM := gcmCalculateMac_not_cipherMode cfg s
  refine ⟨?_, ?_, ?_⟩
  · rw [gcmVerify]
    by_cases h1 : s.isEncryption = true
    · rw [if_pos h1]
      simp [isCipherModeErr, h1]
    · have h1f : s.isEncryption = false := by
        simpa using h1
      rw [if_neg h1]
      by_cases h2 : (!s.isInitialized && !s.isFinalized) = true
      · rw [if_pos h2]
        simp only [Bool.and_eq_true, Bool.not_eq_true'] at h2
        simp [isCipherModeErr, h2]
      · rw [if_neg h2]
        simp only [Bool.and_eq_true, Bool.not_eq_true'] at h2
        by_cases h3 : t < 12 ∨ 16 < t
        · rw [if_pos h3]
          simp [isCipherModeErr, h3]
        · rw [if_neg h3]
          have hRHSf : ¬ (s.isEncryption = true ∨
              (s.isInitialized = false ∧ s.isFinalized = false) ∨ t < 12 ∨ 16 < t) := by
            intro hcon
            rcases hcon with hc | hc | hc | hc
            · exact h1 hc
            · exact h2 hc
            · exact h3 (Or.inl hc)
            · exact h3 (Or.inr hc)
          by_cases h4 : s.isFinalized = true
          · rw [if_neg (by simp [h4])]
            constructor
            · intro hcon
              exact absurd hcon (by simp [isCipherModeErr])
            · intro hcon
              exact absurd hcon hRHSf
          · have h4f : s.isFinalized = false := by simpa using h4
            rw [if_pos (by simp [h4f])]
            cases hres : gcmCalculateMac cfg s with
            | error e =>
              rw [hres] at hmacCM
              cases e with
              | cipherMode m => simp [isCipherModeErr] at hmacCM
              | symmetricCipher m =>
                constructor
                · intro hcon
                  exact absurd hcon (by simp [isCipherModeErr])
                · intro hcon
                  exact absurd hcon hRHSf
            | ok s2 =>
              constructor
              · intro hcon
                exact absurd hcon (by simp [isCipherModeErr])
              · intro hcon
                exact absurd hcon hRHSf
  · rw [gcmFinalize]
    by_cases h1 : s.isInitialized = true
    · rw [if_neg (by simp [h1])]
      by_cases h3 : t < 12 ∨ 16 < t
      · rw [if_pos h3]
        simp [isCipherModeErr, h3]
      · rw [if_neg h3]
        have hRHSf : ¬ (s.isInitialized = false ∨ t < 12 ∨ 16 < t) := by
          intro hcon
          rcases hcon with hc | hc | hc
          · rw [h1] at hc
            exact absurd hc (by simp)
          · exact h3 (Or.inl hc)
          · exact h3 (Or.inr hc)
        cases hres : gcmCalculateMac cfg s with
        | error e =>
          rw [hres] at hmacCM
          cases e with
          | cipherMode m => simp [isCipherModeErr] at hmacCM
          | symmetricCipher m =>
            constructor
            · intro hcon
              exact absurd hcon (by simp [isCipherModeErr])
            · intro hcon
              exact absurd hcon hRHSf
        | ok s2 =>
          constructor
          · intro hcon
            exact absurd hcon (by simp [isCipherModeErr])
          · intro hcon
            exact absurd hcon hRHSf
    · have h1f : s.isInitialized = false := by simpa using h1
      rw [if_pos (by simp [h1f])]
      simp [isCipherModeErr, h1f]
  · intro henc hif ht1 ht2
    have htg : ¬ (t < 12 ∨ 16 < t) := by omega
    by_cases h4 : s.isFinalized = true
    · rw [gcmVerify, if_neg (by simp [henc]), if_neg (by simp [h4]), if_neg htg,
        if_neg (by simp [h4])]
      exact ⟨_, s, rfl, rfl⟩
    · have h4f : s.isFinalized = false := by simpa using h4
      have h1 : s.isInitialized = true := by
        rcases hif with h | h
        · exact h
        · exact absurd h h4
      obtain ⟨s1, hs1⟩ := gcmCalculateMac_ok cfg s hn8 hck
      rw [gcmVerify, if_neg (by simp [henc]), if_neg (by simp [h1]), if_neg htg,
        if_pos (by simp [h4f]), hs1]
      exact ⟨_, s1, rfl, rfl⟩

/-- A concrete decrypting, initialized, keyed state for the C5 witness. -/
def c5State : GCMState :=
  { gcmFresh with
    isEncryption := false, isInitialized := true
    gcmNonce := List.replicate 12 2, ctrKeyed := true
    ctrCounter := List.replicate 16 0, gcmH := some 0 }

/-- Witness for C5 at a concrete decrypting state and tag length 13. -/
theorem gcm_verify_error_conditions_witness :
    (isCipherModeErr (gcmVerify idCipherCfg c5State (List.replicate 13 9) 13) = true ↔
      (c5State.isEncryption = true ∨
        (c5State.isInitialized = false ∧ c5State.isFinalized = false) ∨
        13 < 12 ∨ 16 < 13)) ∧
    (isCipherModeErr (gcmFinalize idCipherCfg c5State 13) = true ↔
      (c5State.isInitialized = false ∨ 13 < 12 ∨ 16 < 13)) ∧
    (c5State.isEncryption = false → (c5State.isInitialized = true ∨ c5State.isFinalized = true) →
      12 ≤ 13 → 13 ≤ 16 →
      ∃ b : Bool, ∃ s1 : GCMState,
        gcmVerify idCipherCfg c5State (List.replicate 13 9) 13 = .ok (b, s1) ∧
        b = decide (s1.msgTag.take 13 = (List.replicate 13 9 : List Nat).take 13)) :=
  gcm_verify_error_conditions idCipherCfg c5State (List.replicate 13 9) 13
    (by decide) rfl

/-- Counterexample for C5 as frozen: after Finalize, the instance is
finalized but no longer initialized; Verify still returns a boolean on
it, while Finalize throws a CipherMode exception - so Finalize does not
apply the same initialization check as Verify. -/
theorem gcm_finalize_checks_differ_from_verify :
    ∃ tag : List Nat, ∃ s2 : GCMState,
      gcmInit idCipherCfg false (List.replicate 16 1) (List.replicate 12 2) gcmFresh =
        .ok (gcmPostInit idCipherCfg false (List.replicate 16 1) (List.replicate 12 2)) ∧
      gcmFinalize idCipherCfg
        (gcmPostInit idCipherCfg false (List.replicate 16 1) (List.replicate 12 2)) 12 =
        .ok (tag, s2) ∧
      (∃ b : Bool, ∃ s3 : GCMState,
        gcmVerify idCipherCfg s2 (List.replicate 12 9) 12 = .ok (b, s3)) ∧
      isCipherModeErr (gcmFinalize idCipherCfg s2 12) = true := by
  set P := gcmPostInit idCipherCfg false (List.replicate 16 1) (List.replicate 12 2) with hP
  have hmac : ∃ s2 : GCMState, gcmCalculateMac idCipherCfg P = .ok s2 ∧
      s2.isFinalized = true ∧ s2.isInitialized = false ∧ s2.isEncryption = false :=
    ⟨_, rfl, rfl, rfl, rfl⟩
  obtain ⟨s2, hs2, hfz, hini, henc⟩ := hmac
  refine ⟨s2.msgTag.take 12, s2, ?_, ?_, ?_, ?_⟩
  · exact gcmInit_keyed idCipherCfg false (List.replicate 16 1) (List.replicate 12 2)
      (by decide) (by decide) (by decide)
  · rw [gcmFinalize_open idCipherCfg P 12 rfl (by decide), hs2]
  · rw [gcmVerify, if_neg (by simp [henc]), if_neg (by simp [hfz]), if_neg (by decide),
      if_neg (by simp [hfz])]
    exact ⟨_, s2, rfl⟩
  · rw [gcmFinalize, if_pos (by simp [hini])]
    rfl

/-! ## Claim C6 -/

/-- C6: contrary to the claim, `Salsa20::Initialize` performs no length
check on a nonempty info: an 8-byte info is accepted without error and
installed verbatim as the expansion constants `m_dstCode` (which
`Salsa20::Expand` then reads at byte offsets 0, 4, 8 and 12, past the
end of an 8-byte vector). -/
theorem salsa20_accepts_short_info :
    salsa20Init (List.replicate 32 0) (List.replicate 8 0) (List.replicate 8 7) =
      .ok (List.replicate 8 7) := rfl

/-! ## Claim C7 -/

/-- C7: the tree-hash driver's ParallelMaxDegree succeeds only for even,
nonzero degrees not exceeding the CPU core count, and every other degree
fails with an error; exactly, a degree is accepted iff it is even,
nonzero, at most the core count and at most 254 (the extra bound
hard-coded in Keccak512.cpp). -/
theorem keccak_parallel_max_degree_conditions (procCount degree : Nat) :
    ((∃ d : Nat, keccakParallelMaxDegree procCount degree = .ok d) →
      degree % 2 = 0 ∧ degree ≠ 0 ∧ degree ≤ procCount) ∧
    (¬ (degree % 2 = 0 ∧ degree ≠ 0 ∧ degree ≤ procCount) →
      ∃ e : String, keccakParallelMaxDegree procCount degree = .error e) ∧
    ((∃ d : Nat, keccakParallelMaxDegree procCount degree = .ok d) ↔
      (degree % 2 = 0 ∧ degree ≠ 0 ∧ degree ≤ procCount ∧ degree ≤ 254)) := by
  by_cases h0 : degree = 0 <;>
    by_cases h254 : degree > 254 <;>
    by_cases hodd : degree % 2 ≠ 0 <;>
    by_cases hpc : degree > procCount <;>
    simp [keccakParallelMaxDegree, parallelOptionsSetMaxDegree, h0, h254, hodd, hpc] <;>
    omega

/-- Witness for C7: degree 6 on an 8-core machine is accepted and is
even, nonzero and within the core count; degree 3 is refused. -/
theorem keccak_parallel_max_degree_conditions_witness :
    ((6 : Nat) % 2 = 0 ∧ (6 : Nat) ≠ 0 ∧ (6 : Nat) ≤ 8) ∧
    (∃ e : String, keccakParallelMaxDegree 8 3 = .error e) :=
  ⟨(keccak_parallel_max_degree_conditions 8 6).1 ⟨6, rfl⟩,
   (keccak_parallel_max_degree_conditions 8 3).2.1 (by decide)⟩

/-! ## Claim C9 -/

/-- C9: `BlakeB512::Name` returns the same string, "BlakeBP512", in both
the parallel and the sequential branch - the documented intent of
distinct names is not met (contrast `Enumeral`, which does distinguish
the modes). -/
theorem blakeB512_name_same_in_both_modes :
    blakeB512Name true = blakeB512Name false ∧
    blakeB512Name true = "BlakeBP512" ∧
    blakeB512Name false = "BlakeBP512" ∧
    blakeB512Enumeral true ≠ blakeB512Enumeral false := by
  refine ⟨rfl, rfl, rfl, ?_⟩
  decide

/-! ## Claim C8 -/

theorem readShort_le16 (n : Nat) (h : n < 32768) :
    readShort (n % 256) (n / 256 % 256) = (n : Int) := by
  rw [readShort]
  have he : n % 256 % 256 + 256 * (n / 256 % 256 % 256) = n := by omega
  rw [he, if_pos h]

/-- C8 (amended): Serialize writes three 16-bit little-endian length
prefixes (key, nonce, info) followed by the raw byte ranges, and
DeSerialize round-trips every container that is not entirely empty and
whose key, nonce and info lengths are each below 2^15 - DeSerialize
reads the prefixes back as SIGNED 16-bit values, so lengths in
[2^15, 2^16) are read as negative and do not round-trip. -/
theorem symmetricKey_serialize_roundtrip (k : SymKey)
    (hk : k.key.length < 32768) (hn : k.nonce.length < 32768) (hi : k.info.length < 32768)
    (hne : ¬ (k.key = [] ∧ k.nonce = [] ∧ k.info = [])) :
    symmetricKeySerialize k =
      le16 k.key.length ++ le16 k.nonce.length ++ le16 k.info.length
        ++ k.key ++ k.nonce ++ k.info ∧
    symmetricKeyDeSerialize (symmetricKeySerialize k) = some k := by
  refine ⟨rfl, ?_⟩
  have hser : symmetricKeySerialize k =
      k.key.length % 256 :: k.key.length / 256 % 256 ::
      k.nonce.length % 256 :: k.nonce.length / 256 % 256 ::
      k.info.length % 256 :: k.info.length / 256 % 256 ::
      (k.key ++ (k.nonce ++ k.info)) := by
    rw [symmetricKeySerialize, le16, le16, le16]
    simp [List.append_assoc]
  rw [hser, symmetricKeyDeSerialize]
  rw [readShort_le16 k.key.length hk, readShort_le16 k.nonce.length hn,
    readShort_le16 k.info.length hi]
  have hkey : (if (0 : Int) < (k.key.length : Int)
      then (k.key ++ (k.nonce ++ k.info)).take ((k.key.length : Int)).toNat else []) = k.key := by
    rcases Nat.eq_zero_or_pos k.key.length with h0 | h0
    · rw [if_neg (by simp [h0])]
      exact (List.eq_nil_of_length_eq_zero h0).symm
    · rw [if_pos (by exact_mod_cast h0), Int.toNat_natCast]
      exact List.take_left k.key (k.nonce ++ k.info)
  have hrest1 : (if (0 : Int) < (k.key.length : Int)
      then (k.key ++ (k.nonce ++ k.info)).drop ((k.key.length : Int)).toNat
      else k.key ++ (k.nonce ++ k.info)) = k.nonce ++ k.info := by
    rcases Nat.eq_zero_or_pos k.key.length with h0 | h0
    · rw [if_neg (by simp [h0])]
      rw [List.eq_nil_of_length_eq_zero h0, List.nil_append]
    · rw [if_pos (by exact_mod_cast h0), Int.toNat_natCast]
      exact List.drop_left k.key (k.nonce ++ k.info)
  rw [hkey, hrest1]
  have hnonce : (if (0 : Int) < (k.nonce.length : Int)
      then (k.nonce ++ k.info).take ((k.nonce.length : Int)).toNat else []) = k.nonce := by
    rcases Nat.eq_zero_or_pos k.nonce.length with h0 | h0
    · rw [if_neg (by simp [h0])]
      exact (List.eq_nil_of_length_eq_zero h0).symm
    · rw [if_pos (by exact_mod_cast h0), Int.toNat_natCast]
      exact List.take_left k.nonce k.info
  have hrest2 : (if (0 : Int) < (k.nonce.length : Int)
      then (k.nonce ++ k.info).drop ((k.nonce.length : Int)).toNat
      else k.nonce ++ k.info) = k.info := by
    rcases Nat.eq_zero_or_pos k.nonce.length with h0 | h0
    · rw [if_neg (by simp [h0])]
      rw [List.eq_nil_of_length_eq_zero h0, List.nil_append]
    · rw [if_pos (by exact_mod_cast h0), Int.toNat_natCast]
      exact List.drop_left k.nonce k.info
  rw [hnonce, hrest2]
  have hinfo : (if (0 : Int) < (k.info.length : Int)
      then k.info.take ((k.info.length : Int)).toNat else []) = k.info := by
    rcases Nat.eq_zero_or_pos k.info.length with h0 | h0
    · rw [if_neg (by simp [h0])]
      exact (List.eq_nil_of_length_eq_zero h0).symm
    · rw [if_pos (by exact_mod_cast h0), Int.toNat_natCast]
      exact List.take_of_length_le le_rfl
  rw [hinfo]
  rw [if_neg hne]

/-- Witness for C8 at a small concrete container. -/
theorem symmetricKey_serialize_roundtrip_witness :
    symmetricKeySerialize { key := [1], nonce := [2], info := [3] } =
      le16 ([1] : List Nat).length ++ le16 ([2] : List Nat).length
        ++ le16 ([3] : List Nat).length ++ [1] ++ [2] ++ [3] ∧
    symmetricKeyDeSerialize (symmetricKeySerialize
      { key := [1], nonce := [2], info := [3] }) =
      some { key := [1], nonce := [2], info := [3] } :=
  symmetricKey_serialize_roundtrip { key := [1], nonce := [2], info := [3] }
    (by decide) (by decide) (by decide) (by decide)

/-- Counterexample for C8 as frozen: a container whose key is 32768 bytes
long fits in 16 bits, yet DeSerialize of its serialization reads the
signed length as -32768, skips the key, reads the first key byte as the
nonce, and does not return the original container. -/
theorem symmetricKey_roundtrip_fails_on_signed_overflow :
    symmetricKeyDeSerialize (symmetricKeySerialize
        { key := 1 :: List.replicate 32767 1, nonce := [2], info := [] }) =
      some { key := [], nonce := [1], info := [] } ∧
    symmetricKeyDeSerialize (symmetricKeySerialize
        { key := 1 :: List.replicate 32767 1, nonce := [2], info := [] }) ≠
      some { key := 1 :: List.replicate 32767 1, nonce := [2], info := [] } ∧
    (1 :: List.replicate 32767 1 : List Nat).length < 2 ^ 16 ∧
    ([2] : List Nat).length < 2 ^ 16 ∧ ([] : List Nat).length < 2 ^ 16 := by
  have hlen : (1 :: List.replicate 32767 1 : List Nat).length = 32768 := by
    rw [List.length_cons, List.length_replicate]
  have hmain : symmetricKeyDeSerialize (symmetricKeySerialize
      { key := 1 :: List.replicate 32767 1, nonce := [2], info := [] }) =
      some { key := [], nonce := [1], info := [] } := by
    have hser : symmetricKeySerialize
        { key := 1 :: List.replicate 32767 1, nonce := [2], info := [] } =
        0 :: 128 :: 1 :: 0 :: 0 :: 0 :: 1 :: (List.replicate 32767 1 ++ [2]) := by
      rw [symmetricKeySerialize]
      simp only []
      rw [hlen]
      rw [show le16 32768 = [0, 128] from by norm_num [le16]]
      rw [show le16 ([2] : List Nat).length = [1, 0] from by norm_num [le16]]
      rw [show le16 ([] : List Nat).length = [0, 0] from by norm_num [le16]]
      simp only [List.cons_append, List.nil_append, List.append_nil, List.append_assoc]
    rw [hser, symmetricKeyDeSerialize]
    rw [show readShort 0 128 = (-32768 : Int) from by norm_num [readShort]]
    rw [show readShort 1 0 = (1 : Int) from by norm_num [readShort]]
    rw [show readShort 0 0 = (0 : Int) from by norm_num [readShort]]
    have hneg : ¬ ((0 : Int) < -32768) := by norm_num
    have hzero : ¬ ((0 : Int) < 0) := by norm_num
    have hone : (0 : Int) < 1 := by norm_num
    rw [if_neg hneg, if_neg hneg, if_pos hone, if_pos hone]
    rw [show ((1 : Int)).toNat = 1 from rfl]
    rw [show ((1 :: (List.replicate 32767 1 ++ [2]) : List Nat)).take 1 = [1] from rfl]
    rw [if_neg hzero]
    rw [if_neg (by simp)]
  refine ⟨hmain, ?_, by rw [hlen]; norm_num, by norm_num, by norm_num⟩
  rw [hmain]
  intro hcon
  have h1 : ({ key := [], nonce := [1], info := [] } : SymKey) =
      { key := 1 :: List.replicate 32767 1, nonce := [2], info := [] } :=
    Option.some.inj hcon
  have h2 : ([] : List Nat) = 1 :: List.replicate 32767 1 := congrArg SymKey.key h1
  exact List.noConfusion h2

/-! ## Claim C10 -/

/-- C10: Finalize leaves a Keccak512 instance in the freshly-reset state:
the message buffer is cleared, the message length is zero, and every
leaf state is re-initialized (absorbing the per-leaf tree parameters
again in parallel mode) - exactly the state the constructor produces,
since both end in `Reset`.  Hence updating with any `y` and finalizing
after a completed finalize of any `x` yields the same digest of `y` as a
fresh instance does. -/
theorem keccak_finalize_resets (cfg : KeccakCfg) (s : KeccakState) (x y : List Nat) :
    ((keccakFinalize cfg (keccakUpdate cfg s x)).2).msgBuffer =
      List.replicate (keccakBufSize cfg) 0 ∧
    ((keccakFinalize cfg (keccakUpdate cfg s x)).2).msgLength = 0 ∧
    ((keccakFinalize cfg (keccakUpdate cfg s x)).2).dgtState =
      (List.range (keccakStateCount cfg)).map (fun i =>
        if cfg.parallel then keccakCompress cfg (cfg.leafParams i) 0 keccakStateInit
        else keccakStateInit) ∧
    (keccakFinalize cfg (keccakUpdate cfg s x)).2 = keccakReset cfg ∧
    (keccakFinalize cfg (keccakUpdate cfg
        (keccakFinalize cfg (keccakUpdate cfg s x)).2 y)).1 =
      (keccakFinalize cfg (keccakUpdate cfg (keccakReset cfg) y)).1 := by
  have h2 : ∀ z : KeccakState, (keccakFinalize cfg z).2 = keccakReset cfg := by
    intro z
    rw [keccakFinalize]
    split <;> rfl
  refine ⟨?_, ?_, ?_, h2 _, ?_⟩
  · rw [h2]
    rfl
  · rw [h2]
    rfl
  · rw [h2]
    rfl
  · rw [h2 (keccakUpdate cfg s x)]
